import Mathlib

/-!
Verification of the case-insensitive path resolution engine of
`src/insensitive.cpp` (`Wrapper::replace_filename_case_insensitive` and its
helpers `should_exclude_path`, `file_exists_real`).

Paths are modelled as Lean `String`s; the `std::filesystem::path`
operations used by the source (`filename()`, `parent_path()`, `root_path()`,
`operator/`) are modelled for POSIX path strings (no root names).  The raw
filesystem (`stat_real`, `opendir_real`/`readdir`) is an abstract structure
`FS`; the resolution cache (`std::unordered_map` guarded by a mutex) is an
association list updated by the resolution function.
-/

namespace Insensitive

/-- ASCII lower-casing of one character, as C `tolower` in the C locale:
letters `A`–`Z` are shifted to `a`–`z`, every other character is unchanged. -/
def lowerChar (c : Char) : Char :=
  if 'A' ≤ c ∧ c ≤ 'Z' then Char.ofNat (c.toNat + 32) else c

/-- ASCII lower-casing of a string, as
`std::transform(s.begin(), s.end(), s.begin(), ::tolower)`. -/
def strLower (s : String) : String :=
  ⟨s.data.map lowerChar⟩

/-- Split a character list into (directory part, filename part): the filename
part is the maximal slash-free suffix, the directory part is everything up to
and including the last slash (empty when there is no slash). -/
def splitLast : List Char → List Char × List Char
  | [] => ([], [])
  | c :: rest =>
    let p := splitLast rest
    if p.1 = [] then
      if c = '/' then (['/'], rest) else ([], c :: rest)
    else (c :: p.1, p.2)

/-- Remove the maximal run of trailing slashes. -/
def dropTrailSlashes : List Char → List Char
  | [] => []
  | c :: rest =>
    if dropTrailSlashes rest = [] ∧ c = '/' then [] else c :: dropTrailSlashes rest

/-- Model of `std::filesystem::path::filename()` on POSIX: the maximal
slash-free suffix of the path string (empty for paths ending in a separator,
and for the root). -/
def pathFilename (s : String) : String := ⟨(splitLast s.data).2⟩

/-- Model of `std::filesystem::path::parent_path()` on POSIX: drop the
filename part and then the trailing separators, keeping a lone root slash. -/
def parentPath (s : String) : String :=
  if (splitLast s.data).1 = [] then ""
  else if dropTrailSlashes (splitLast s.data).1 = [] then "/"
  else ⟨dropTrailSlashes (splitLast s.data).1⟩

/-- Model of `std::filesystem::path::root_path()` on POSIX (no root names):
`"/"` for absolute paths, empty for relative ones. -/
def rootPath (s : String) : String :=
  if s.data.head? = some '/' then "/" else ""

/-- Whether a path string is absolute. -/
def isAbs (s : String) : Bool := s.data.head? = some '/'

/-- Model of `std::filesystem::path::operator/` on POSIX: an absolute right
operand replaces the left one entirely; otherwise a single separator is
inserted unless the left operand is empty or already ends in one. -/
def pathJoin (a b : String) : String :=
  if b.data.head? = some '/' then b
  else if a = "" then b
  else if a.data.getLast? = some '/' then ⟨a.data ++ b.data⟩
  else ⟨a.data ++ '/' :: b.data⟩

/-- The non-empty slash-separated components of a path string, in order. -/
def components : List Char → List (List Char)
  | [] => []
  | [c] => if c = '/' then [] else [[c]]
  | c :: d :: rs =>
    if c = '/' then components (d :: rs)
    else if d = '/' then [c] :: components rs
    else
      match components (d :: rs) with
      | [] => [[c]]
      | g :: gs => (c :: g) :: gs

/-- The component list of a path string. -/
def pathComponents (s : String) : List (List Char) := components s.data

/-- The components of a path string, each ASCII-lower-cased. -/
def lowerComp (s : String) : List (List Char) :=
  (pathComponents s).map (List.map lowerChar)

/-- Two path strings name the same location up to ASCII letter case:
same absoluteness and componentwise-equal after lower-casing (runs of
separators are not distinguished from single separators). -/
def caseEqPath (a b : String) : Prop :=
  isAbs a = isAbs b ∧ lowerComp a = lowerComp b

-- sanity checks for the path model
example : pathFilename "/a/b" = "b" := by decide
example : pathFilename "/a/b/" = "" := by decide
example : pathFilename "/" = "" := by decide
example : pathFilename "foo" = "foo" := by decide
example : parentPath "/a/b" = "/a" := by decide
example : parentPath "/a" = "/" := by decide
example : parentPath "/" = "/" := by decide
example : parentPath "a/b" = "a" := by decide
example : parentPath "a" = "" := by decide
example : parentPath "a//b" = "a" := by decide
example : parentPath "/a/b/" = "/a/b" := by decide
example : pathJoin "/a" "b" = "/a/b" := by decide
example : pathJoin "/" "b" = "/b" := by decide
example : pathJoin "" "b" = "b" := by decide
example : pathJoin "a" "" = "a/" := by decide
example : strLower "FoO.TXT" = "foo.txt" := by decide
example : components "a//b".data = ["a".data, "b".data] := by decide

theorem splitLast_append (cs : List Char) :
    (splitLast cs).1 ++ (splitLast cs).2 = cs := by
  induction cs with
  | nil => rfl
  | cons c rest ih =>
    simp only [splitLast]
    by_cases h1 : (splitLast rest).1 = []
    · rw [h1] at ih
      by_cases h2 : c = '/'
      · simp [h1, h2]
      · simp [h1, h2]
    · simp [h1, ih]

theorem splitLast_snd_eq (cs : List Char) (h : (splitLast cs).1 = []) :
    (splitLast cs).2 = cs := by
  have := splitLast_append cs
  rwa [h, List.nil_append] at this

theorem splitLast_no_slash (cs : List Char) : '/' ∉ (splitLast cs).2 := by
  induction cs with
  | nil => simp [splitLast]
  | cons c rest ih =>
    simp only [splitLast]
    by_cases h1 : (splitLast rest).1 = []
    · have hsnd := splitLast_snd_eq rest h1
      rw [hsnd] at ih
      by_cases h2 : c = '/'
      · simpa [h1, h2] using ih
      · simp only [h1, if_pos rfl, if_neg h2]
        intro hmem
        rcases List.mem_cons.mp hmem with h | h
        · exact h2 h.symm
        · exact ih h
    · simpa [h1] using ih

theorem splitLast_of_no_slash (cs : List Char) (h : '/' ∉ cs) :
    splitLast cs = ([], cs) := by
  induction cs with
  | nil => rfl
  | cons c rest ih =>
    have hc : c ≠ '/' := fun hc => h (hc ▸ List.mem_cons_self c rest)
    have hr : '/' ∉ rest := fun hm => h (List.mem_cons_of_mem _ hm)
    simp [splitLast, ih hr, hc]

theorem splitLast_fst_ends_slash (cs : List Char)
    (h : (splitLast cs).1 ≠ []) : ∃ d, (splitLast cs).1 = d ++ ['/'] := by
  induction cs with
  | nil => simp [splitLast] at h
  | cons c rest ih =>
    simp only [splitLast] at h ⊢
    by_cases h1 : (splitLast rest).1 = []
    · by_cases h2 : c = '/'
      · exact ⟨[], by simp [h1, h2]⟩
      · simp [h1, h2] at h
    · rcases ih h1 with ⟨d, hd⟩
      exact ⟨c :: d, by simp [h1, hd]⟩

theorem splitLast_concat_slash (xs ys : List Char) (h : '/' ∉ ys) :
    splitLast (xs ++ '/' :: ys) = (xs ++ ['/'], ys) := by
  induction xs with
  | nil =>
    simp [splitLast, splitLast_of_no_slash ys h]
  | cons x xs ih =>
    simp [splitLast, ih]

theorem length_dropTrailSlashes_concat (d : List Char) :
    (dropTrailSlashes (d ++ ['/'])).length ≤ d.length := by
  induction d with
  | nil => simp [dropTrailSlashes]
  | cons c rest ih =>
    rw [List.cons_append, dropTrailSlashes]
    split_ifs with h
    · simp
    · simp only [List.length_cons]
      omega

theorem dropTrailSlashes_eq_nil_iff (cs : List Char) :
    dropTrailSlashes cs = [] ↔ ∀ x ∈ cs, x = '/' := by
  induction cs with
  | nil => simp [dropTrailSlashes]
  | cons c rest ih =>
    rw [dropTrailSlashes]
    split_ifs with h
    · exact Iff.intro
        (fun _ x hx => by
          rcases List.mem_cons.mp hx with rfl | hx
          · exact h.2
          · exact ih.mp h.1 x hx)
        (fun _ => rfl)
    · exact Iff.intro
        (fun hc => absurd hc (by simp))
        (fun hall => absurd ⟨ih.mpr fun x hx => hall x (List.mem_cons_of_mem _ hx),
          hall c (List.mem_cons_self _ _)⟩ h)

theorem string_length_mk (cs : List Char) : (String.mk cs).length = cs.length := rfl

theorem string_eq_of_data_eq {a b : String} (h : a.data = b.data) : a = b := by
  cases a
  cases b
  cases h
  rfl

theorem string_data_ne_nil (s : String) (h : s ≠ "") : s.data ≠ [] :=
  fun hd => h (string_eq_of_data_eq (by rw [hd]))

theorem parentPath_length_lt (s : String) (h1 : s ≠ "") (h2 : s ≠ rootPath s) :
    (parentPath s).length < s.length := by
  have hcs : s.data ≠ [] := string_data_ne_nil s h1
  have hsplit := splitLast_append s.data
  have hslen : s.length = s.data.length := rfl
  unfold parentPath
  by_cases hd : (splitLast s.data).1 = []
  · rw [if_pos hd]
    have hpos := List.length_pos.mpr hcs
    have : ("" : String).length = 0 := rfl
    omega
  · rcases splitLast_fst_ends_slash s.data hd with ⟨d, hdd⟩
    rw [if_neg hd]
    by_cases ht : dropTrailSlashes (splitLast s.data).1 = []
    · rw [if_pos ht]
      have hall : ∀ x ∈ (splitLast s.data).1, x = '/' :=
        (dropTrailSlashes_eq_nil_iff _).mp ht
      have hlen2 : 1 < s.data.length := by
        rcases Nat.lt_or_ge s.data.length 2 with hlt | hge
        · exfalso
          have hpos : 0 < s.data.length := List.length_pos.mpr hcs
          have hone : s.data.length = 1 := by omega
          have hsum : (splitLast s.data).1.length + (splitLast s.data).2.length
              = 1 := by
            have := congrArg List.length hsplit
            simpa [hone] using this
          have hDpos : 0 < (splitLast s.data).1.length :=
            List.length_pos.mpr hd
          have hF : (splitLast s.data).2 = [] :=
            List.eq_nil_of_length_eq_zero (by omega)
          have hD := hsplit
          rw [hF, List.append_nil] at hD
          rcases List.length_eq_one.mp hone with ⟨x, hx⟩
          have hx' : x = '/' := by
            apply hall x
            rw [hD, hx]
            exact List.mem_cons_self _ _
          apply h2
          have hdata : s.data = ['/'] := by rw [hx, hx']
          have hsval : s = "/" := string_eq_of_data_eq (by rw [hdata])
          rw [hsval]
          rfl
        · omega
      have : ("/" : String).length = 1 := rfl
      omega
    · rw [if_neg ht]
      rw [string_length_mk]
      have hle : (dropTrailSlashes (splitLast s.data).1).length ≤ d.length := by
        rw [hdd]
        exact length_dropTrailSlashes_concat d
      have hDlen : (splitLast s.data).1.length = d.length + 1 := by
        rw [hdd]
        simp
      have hsum := congrArg List.length hsplit
      simp only [List.length_append] at hsum
      omega

/-- The raw, non-intercepted filesystem interface (`stat_real` and
`opendir_real`/`readdir`): an abstract model of `RawFilesystemAccess`.
`listDir d = none` models a failed `opendir_real` (the `dir == nullptr`
branch); `some entries` yields the entry names in enumeration order,
`"."` and `".."` included when the directory provides them. -/
structure FS where
  fileExists : String → Bool
  listDir : String → Option (List String)

/-- The resolution cache `std::unordered_map<std::string, std::string>`,
modelled as an association list where an insert prepends (the newest binding
shadows older ones on lookup, giving map semantics for `operator[]`). -/
abbrev Cache := List (String × String)

/-- The exclusion list hard-coded in `should_exclude_path`. -/
def excluded_prefixes : List String := ["/dev/", "/proc/", "/sys/"]

/-- Model of `Wrapper::should_exclude_path`: a byte-wise, case-sensitive
prefix test (`strncmp`) against each configured exclusion prefix. -/
def should_exclude_path (path : String) : Bool :=
  excluded_prefixes.any fun pre => pre.data.isPrefixOf path.data

/-- The directory scan loop of `replace_filename_case_insensitive`: skip the
`.` and `..` entries and return the first entry whose ASCII-lower-cased name
equals the (already lower-cased) target, stopping there (`break`). -/
def findMatch (lower_filename : String) : List String → Option String
  | [] => none
  | e :: rest =>
    if e = "." ∨ e = ".." then findMatch lower_filename rest
    else if strLower e = lower_filename then some e
    else findMatch lower_filename rest

/-- One step of `Wrapper::replace_filename_case_insensitive` on a non-null
path, structured over a fuel argument that dominates the parent-path
recursion depth (the C++ recursion terminates because `parent_path` strictly
shortens the path, see `parentPath_length_lt`).  Mirrors the source line by
line: exclusion check, empty/root check, exact existence check, cache
lookup, recursive parent repair, directory scan with first-match semantics,
cache insert keyed by `p.string()`, and `path_new` (initialized to the
original `path`) returned when the scan fails or finds nothing. -/
def resolveFuel (fs : FS) : Nat → Cache → String → String × Cache
  | 0, cache, path => (path, cache)
  | fuel + 1, cache, path =>
    if should_exclude_path path then (path, cache)
    else if path = "" ∨ path = rootPath path then (path, cache)
    else if fs.fileExists path then (path, cache)
    else
      match List.lookup path cache with
      | some v => (v, cache)
      | none =>
        let pc : String × Cache :=
          if fs.fileExists (parentPath path) = false then
            let r := resolveFuel fs fuel cache (parentPath path)
            if fs.fileExists r.1 then (pathJoin r.1 (pathFilename path), r.2)
            else (path, r.2)
          else (path, cache)
        match fs.listDir (parentPath pc.1) with
        | none => (path, pc.2)
        | some entries =>
          match findMatch (strLower (pathFilename path)) entries with
          | none => (path, pc.2)
          | some e =>
            (pathJoin (parentPath pc.1) e,
             (pc.1, pathJoin (parentPath pc.1) e) :: pc.2)

/-- Model of `Wrapper::replace_filename_case_insensitive` on a non-null path:
the fuel `path.length + 1` strictly dominates the parent-path recursion
depth, so the out-of-fuel case never fires (`resolveFuel_stable`). -/
def replace_filename_case_insensitive (fs : FS) (cache : Cache)
    (path : String) : String × Cache :=
  resolveFuel fs (path.length + 1) cache path

/-- The null-pointer behaviour of the source function: a null path is
returned as null (`if (!path) return nullptr`). -/
def replace_filename_case_insensitive_opt (fs : FS) (cache : Cache) :
    Option String → Option String × Cache
  | none => (none, cache)
  | some path =>
    (some (replace_filename_case_insensitive fs cache path).1,
     (replace_filename_case_insensitive fs cache path).2)

theorem resolveFuel_mono (fs : FS) :
    ∀ f1 f2 cache path, path.length < f1 → path.length < f2 →
      resolveFuel fs f1 cache path = resolveFuel fs f2 cache path := by
  intro f1
  induction f1 with
  | zero =>
    intro f2 cache path h1 _
    exact absurd h1 (Nat.not_lt_zero _)
  | succ m ih =>
    intro f2 cache path h1 h2
    cases f2 with
    | zero => exact absurd h2 (Nat.not_lt_zero _)
    | succ k =>
      simp only [resolveFuel]
      by_cases hroot : path = "" ∨ path = rootPath path
      · simp [hroot]
      · have hlt := parentPath_length_lt path (not_or.mp hroot).1
          (not_or.mp hroot).2
        have heq : resolveFuel fs m cache (parentPath path) =
            resolveFuel fs k cache (parentPath path) := by
          apply ih
          · omega
          · omega
        rw [heq]

/-- A sufficiently large fuel computes `replace_filename_case_insensitive`. -/
theorem resolveFuel_stable (fs : FS) (fuel : Nat) (cache : Cache)
    (path : String) (h : path.length < fuel) :
    resolveFuel fs fuel cache path =
      replace_filename_case_insensitive fs cache path :=
  resolveFuel_mono fs fuel (path.length + 1) cache path h (Nat.lt_succ_self _)

/-- The parent-repair step of the source (lines 275–291): when the parent
directory of `path` does not exist, resolve it recursively and, if the
recursive result exists on disk, rebuild the working path as
`resolved-parent / filename`; the cache returned is the one produced by the
recursive call. -/
def repairStep (fs : FS) (cache : Cache) (path : String) : String × Cache :=
  if fs.fileExists (parentPath path) = false then
    if fs.fileExists
        (replace_filename_case_insensitive fs cache (parentPath path)).1 then
      (pathJoin (replace_filename_case_insensitive fs cache (parentPath path)).1
        (pathFilename path),
       (replace_filename_case_insensitive fs cache (parentPath path)).2)
    else (path, (replace_filename_case_insensitive fs cache (parentPath path)).2)
  else (path, cache)

/-- Unfolding of the resolver past its four early-return gates: what remains
is the parent repair followed by the directory scan. -/
theorem resolve_eq_scan (fs : FS) (cache : Cache) (path : String)
    (h1 : should_exclude_path path = false)
    (h2 : ¬(path = "" ∨ path = rootPath path))
    (h3 : fs.fileExists path = false)
    (h4 : List.lookup path cache = none) :
    replace_filename_case_insensitive fs cache path =
      match fs.listDir (parentPath (repairStep fs cache path).1) with
      | none => (path, (repairStep fs cache path).2)
      | some entries =>
        match findMatch (strLower (pathFilename path)) entries with
        | none => (path, (repairStep fs cache path).2)
        | some e =>
          (pathJoin (parentPath (repairStep fs cache path).1) e,
           ((repairStep fs cache path).1,
            pathJoin (parentPath (repairStep fs cache path).1) e)
             :: (repairStep fs cache path).2) := by
  have hlt := parentPath_length_lt path (not_or.mp h2).1 (not_or.mp h2).2
  unfold replace_filename_case_insensitive repairStep
  simp only [resolveFuel]
  rw [if_neg (by simp [h1]), if_neg h2, if_neg (by simp [h3]), h4]
  rw [resolveFuel_stable fs path.length cache (parentPath path) (by omega)]

/-- Step 4 of the resolver: a path that exists exactly as given is returned
unchanged with the cache untouched, whatever earlier gate fires. -/
theorem resolve_of_exists (fs : FS) (cache : Cache) (path : String)
    (h : fs.fileExists path = true) :
    replace_filename_case_insensitive fs cache path = (path, cache) := by
  unfold replace_filename_case_insensitive
  simp only [resolveFuel]
  by_cases h1 : should_exclude_path path = true
  · rw [if_pos h1]
  · rw [if_neg h1]
    by_cases h2 : path = "" ∨ path = rootPath path
    · rw [if_pos h2]
    · rw [if_neg h2, if_pos h]

/-- A small filesystem used as a witness: `/`, `/a` and `/a/B` exist, the
root lists `a`, and `/a` lists `.`, `..` and `B`. -/
def fsW : FS where
  fileExists := fun p => p == "/" || p == "/a" || p == "/a/B"
  listDir := fun d =>
    if d = "/" then some ["a"]
    else if d = "/a" then some [".", "..", "B"]
    else none

/-- A filesystem where the parent of the request can be repaired but the
final component has no case-insensitive match: `/a` exists, `/A/b` does not,
and `/a` contains only `c`. -/
def fsC2 : FS where
  fileExists := fun p => p == "/" || p == "/a"
  listDir := fun d =>
    if d = "/" then some ["a"]
    else if d = "/a" then some ["c"]
    else none

/-- A filesystem where the parent of the request is repaired and the final
component then matches: `/a` exists and contains `B`. -/
def fsC3 : FS where
  fileExists := fun p => p == "/" || p == "/a"
  listDir := fun d =>
    if d = "/" then some ["a"]
    else if d = "/a" then some ["B"]
    else none

/-- A filesystem for the separator-collapse counterexample: the relative
directory `a` exists and contains `B`. -/
def fsC9 : FS where
  fileExists := fun p => p == "a"
  listDir := fun d => if d = "a" then some ["B"] else none

-- sanity checks of the resolver model against hand-traces of the C++ code
example : (replace_filename_case_insensitive fsW [] "/a").1 = "/a" := by decide
example : (replace_filename_case_insensitive fsW [] "/A/b").1 = "/a/B" := by
  decide
example : (replace_filename_case_insensitive fsC2 [] "/A").1 = "/a" := by
  decide
example : replace_filename_case_insensitive fsC2 [] "/A/b" =
    ("/A/b", [("/A", "/a")]) := by decide
example : replace_filename_case_insensitive fsC3 [] "/A/b" =
    ("/a/B", [("/a/b", "/a/B"), ("/A", "/a")]) := by decide
example : replace_filename_case_insensitive fsC9 [] "a//b" =
    ("a/B", [("a//b", "a/B")]) := by decide

theorem bool_eq_false {b : Bool} (h : ¬b = true) : b = false := by
  cases b
  · rfl
  · exact absurd rfl h

theorem string_eq_empty_of_length (s : String) (h : s.length = 0) : s = "" :=
  string_eq_of_data_eq (by rw [List.eq_nil_of_length_eq_zero h])

/-- Step 2 of the resolver: an excluded path short-circuits unchanged. -/
theorem resolve_excluded (fs : FS) (cache : Cache) (path : String)
    (h : should_exclude_path path = true) :
    replace_filename_case_insensitive fs cache path = (path, cache) := by
  unfold replace_filename_case_insensitive
  simp only [resolveFuel]
  rw [if_pos h]

/-- Step 3 of the resolver: an empty path or a path equal to its own root
short-circuits unchanged. -/
theorem resolve_empty_or_root (fs : FS) (cache : Cache) (path : String)
    (h : path = "" ∨ path = rootPath path) :
    replace_filename_case_insensitive fs cache path = (path, cache) := by
  unfold replace_filename_case_insensitive
  simp only [resolveFuel]
  by_cases h1 : should_exclude_path path = true
  · rw [if_pos h1]
  · rw [if_neg h1, if_pos h]

/-- Step 5 of the resolver: a cache hit returns the cached value unchanged,
with no cache mutation. -/
theorem resolve_cache_hit (fs : FS) (cache : Cache) (path v : String)
    (h1 : should_exclude_path path = false)
    (h2 : ¬(path = "" ∨ path = rootPath path))
    (h3 : fs.fileExists path = false)
    (h4 : List.lookup path cache = some v) :
    replace_filename_case_insensitive fs cache path = (v, cache) := by
  unfold replace_filename_case_insensitive
  simp only [resolveFuel]
  rw [if_neg (by simp [h1]), if_neg h2, if_neg (by simp [h3]), h4]

/-- Soundness of the scan loop: a returned entry occurs in the enumeration,
is not a pseudo-entry, and case-folds to the target. -/
theorem findMatch_sound (lf : String) (es : List String) (e : String)
    (h : findMatch lf es = some e) :
    e ∈ es ∧ ¬(e = "." ∨ e = "..") ∧ strLower e = lf := by
  induction es with
  | nil => cases h
  | cons x rest ih =>
    rw [findMatch] at h
    split_ifs at h with hdot hmatch
    · rcases ih h with ⟨m1, m2, m3⟩
      exact ⟨List.mem_cons_of_mem _ m1, m2, m3⟩
    · cases h
      exact ⟨List.mem_cons_self _ _, hdot, hmatch⟩
    · rcases ih h with ⟨m1, m2, m3⟩
      exact ⟨List.mem_cons_of_mem _ m1, m2, m3⟩

/-- Well-formedness of the raw filesystem: an entry actually enumerated by a
directory (other than the `.`/`..` pseudo-entries) exists on disk under that
directory.  This is a fact of `readdir` on a quiescent real filesystem. -/
def FSCoherent (fs : FS) : Prop :=
  ∀ d es e, fs.listDir d = some es → e ∈ es → ¬(e = "." ∨ e = "..") →
    fs.fileExists (pathJoin d e) = true

/-- Soundness of a cache state: every stored value exists on disk. -/
def CacheSound (fs : FS) (cache : Cache) : Prop :=
  ∀ k v, List.lookup k cache = some v → fs.fileExists v = true

/-- The cache side of the repair step: either untouched, or exactly the
cache produced by the recursive call on the parent. -/
theorem repairStep_snd (fs : FS) (cache : Cache) (path : String) :
    (repairStep fs cache path).2 = cache ∨
    (repairStep fs cache path).2 =
      (replace_filename_case_insensitive fs cache (parentPath path)).2 := by
  unfold repairStep
  split_ifs <;> simp

/-- The path side of the repair step: either the original path, or the
recursively resolved parent joined with the original filename. -/
theorem repairStep_fst (fs : FS) (cache : Cache) (path : String) :
    (repairStep fs cache path).1 = path ∨
    ((repairStep fs cache path).1 =
      pathJoin (replace_filename_case_insensitive fs cache (parentPath path)).1
        (pathFilename path) ∧
     fs.fileExists
       (replace_filename_case_insensitive fs cache (parentPath path)).1 = true) := by
  unfold repairStep
  split_ifs with hpar hex
  · exact Or.inr ⟨rfl, hex⟩
  · exact Or.inl rfl
  · exact Or.inl rfl

/-- Scan-failure outcome (`opendir_real` returned null): the original input
path is returned, with the cache as left by the repair step. -/
theorem resolve_scan_fail (fs : FS) (cache : Cache) (path : String)
    (h1 : should_exclude_path path = false)
    (h2 : ¬(path = "" ∨ path = rootPath path))
    (h3 : fs.fileExists path = false)
    (h4 : List.lookup path cache = none)
    (hl : fs.listDir (parentPath (repairStep fs cache path).1) = none) :
    replace_filename_case_insensitive fs cache path =
      (path, (repairStep fs cache path).2) := by
  rw [resolve_eq_scan fs cache path h1 h2 h3 h4]
  simp only [hl]

/-- No-match outcome: the scan exhausted the enumeration, and the original
input path is returned, with the cache as left by the repair step. -/
theorem resolve_scan_nomatch (fs : FS) (cache : Cache) (path : String)
    (entries : List String)
    (h1 : should_exclude_path path = false)
    (h2 : ¬(path = "" ∨ path = rootPath path))
    (h3 : fs.fileExists path = false)
    (h4 : List.lookup path cache = none)
    (hl : fs.listDir (parentPath (repairStep fs cache path).1) = some entries)
    (hm : findMatch (strLower (pathFilename path)) entries = none) :
    replace_filename_case_insensitive fs cache path =
      (path, (repairStep fs cache path).2) := by
  rw [resolve_eq_scan fs cache path h1 h2 h3 h4]
  simp only [hl, hm]

/-- Match outcome: the resolved path is the scanned directory joined with
the matched entry; it is returned and inserted into the cache under the key
`p.string()`, i.e. the possibly parent-repaired working path. -/
theorem resolve_scan_match (fs : FS) (cache : Cache) (path : String)
    (entries : List String) (e : String)
    (h1 : should_exclude_path path = false)
    (h2 : ¬(path = "" ∨ path = rootPath path))
    (h3 : fs.fileExists path = false)
    (h4 : List.lookup path cache = none)
    (hl : fs.listDir (parentPath (repairStep fs cache path).1) = some entries)
    (hm : findMatch (strLower (pathFilename path)) entries = some e) :
    replace_filename_case_insensitive fs cache path =
      (pathJoin (parentPath (repairStep fs cache path).1) e,
       ((repairStep fs cache path).1,
        pathJoin (parentPath (repairStep fs cache path).1) e)
         :: (repairStep fs cache path).2) := by
  rw [resolve_eq_scan fs cache path h1 h2 h3 h4]
  simp only [hl, hm]

/-- Auxiliary, length-bounded form of the cache-extension invariant: one
resolver call only ever prepends entries to the cache, and every entry of
the final cache is either an old entry or a freshly resolved path that
exists on disk. -/
theorem resolve_cache_extends_aux (fs : FS) (hfs : FSCoherent fs) :
    ∀ n path cache, path.length ≤ n →
      cache <:+ (replace_filename_case_insensitive fs cache path).2 ∧
      ∀ kv ∈ (replace_filename_case_insensitive fs cache path).2,
        kv ∈ cache ∨ fs.fileExists kv.2 = true := by
  intro n
  induction n with
  | zero =>
    intro path cache hlen
    have : path = "" := string_eq_empty_of_length path (Nat.le_zero.mp hlen)
    rw [this, resolve_empty_or_root fs cache "" (Or.inl rfl)]
    exact ⟨List.suffix_refl _, fun kv hkv => Or.inl hkv⟩
  | succ m ih =>
    intro path cache hlen
    by_cases h1 : should_exclude_path path = true
    · rw [resolve_excluded fs cache path h1]
      exact ⟨List.suffix_refl _, fun kv hkv => Or.inl hkv⟩
    · by_cases h2 : path = "" ∨ path = rootPath path
      · rw [resolve_empty_or_root fs cache path h2]
        exact ⟨List.suffix_refl _, fun kv hkv => Or.inl hkv⟩
      · by_cases h3 : fs.fileExists path = true
        · rw [resolve_of_exists fs cache path h3]
          exact ⟨List.suffix_refl _, fun kv hkv => Or.inl hkv⟩
        · cases h4 : List.lookup path cache with
          | some v =>
            rw [resolve_cache_hit fs cache path v (bool_eq_false h1) h2
              (bool_eq_false h3) h4]
            exact ⟨List.suffix_refl _, fun kv hkv => Or.inl hkv⟩
          | none =>
            have hplt := parentPath_length_lt path (not_or.mp h2).1
              (not_or.mp h2).2
            have hpc : cache <:+ (repairStep fs cache path).2 ∧
                ∀ kv ∈ (repairStep fs cache path).2,
                  kv ∈ cache ∨ fs.fileExists kv.2 = true := by
              rcases repairStep_snd fs cache path with hs | hs
              · rw [hs]
                exact ⟨List.suffix_refl _, fun kv hkv => Or.inl hkv⟩
              · rw [hs]
                exact ih (parentPath path) cache (by omega)
            cases hl : fs.listDir (parentPath (repairStep fs cache path).1) with
            | none =>
              rw [resolve_scan_fail fs cache path (bool_eq_false h1) h2
                (bool_eq_false h3) h4 hl]
              exact hpc
            | some entries =>
              cases hm : findMatch (strLower (pathFilename path)) entries with
              | none =>
                rw [resolve_scan_nomatch fs cache path entries
                  (bool_eq_false h1) h2 (bool_eq_false h3) h4 hl hm]
                exact hpc
              | some e =>
                rw [resolve_scan_match fs cache path entries e
                  (bool_eq_false h1) h2 (bool_eq_false h3) h4 hl hm]
                constructor
                · rcases hpc.1 with ⟨t, ht⟩
                  exact ⟨((repairStep fs cache path).1,
                    pathJoin (parentPath (repairStep fs cache path).1) e) :: t,
                    by rw [List.cons_append, ht]⟩
                · intro kv hkv
                  rcases List.mem_cons.mp hkv with rfl | hkv
                  · right
                    rcases findMatch_sound _ _ _ hm with ⟨m1, m2, _⟩
                    exact hfs _ _ _ hl m1 m2
                  · exact hpc.2 kv hkv

/-- The cache-extension invariant of one resolver call. -/
theorem resolve_cache_extends (fs : FS) (cache : Cache) (path : String)
    (hfs : FSCoherent fs) :
    cache <:+ (replace_filename_case_insensitive fs cache path).2 ∧
    ∀ kv ∈ (replace_filename_case_insensitive fs cache path).2,
      kv ∈ cache ∨ fs.fileExists kv.2 = true :=
  resolve_cache_extends_aux fs hfs path.length path cache (Nat.le_refl _)

/-- Classification of the result path: it is the input itself, or a value
that exists on disk (a sound cache hit, or a freshly matched entry). -/
theorem resolve_result_eq_or_exists (fs : FS) (cache : Cache) (path : String)
    (hfs : FSCoherent fs) (hc : CacheSound fs cache) :
    (replace_filename_case_insensitive fs cache path).1 = path ∨
      fs.fileExists (replace_filename_case_insensitive fs cache path).1
        = true := by
  by_cases h1 : should_exclude_path path = true
  · rw [resolve_excluded fs cache path h1]
    exact Or.inl rfl
  · by_cases h2 : path = "" ∨ path = rootPath path
    · rw [resolve_empty_or_root fs cache path h2]
      exact Or.inl rfl
    · by_cases h3 : fs.fileExists path = true
      · rw [resolve_of_exists fs cache path h3]
        exact Or.inl rfl
      · cases h4 : List.lookup path cache with
        | some v =>
          rw [resolve_cache_hit fs cache path v (bool_eq_false h1) h2
            (bool_eq_false h3) h4]
          exact Or.inr (hc path v h4)
        | none =>
          cases hl : fs.listDir (parentPath (repairStep fs cache path).1) with
          | none =>
            rw [resolve_scan_fail fs cache path (bool_eq_false h1) h2
              (bool_eq_false h3) h4 hl]
            exact Or.inl rfl
          | some entries =>
            cases hm : findMatch (strLower (pathFilename path)) entries with
            | none =>
              rw [resolve_scan_nomatch fs cache path entries (bool_eq_false h1)
                h2 (bool_eq_false h3) h4 hl hm]
              exact Or.inl rfl
            | some e =>
              rw [resolve_scan_match fs cache path entries e (bool_eq_false h1)
                h2 (bool_eq_false h3) h4 hl hm]
              rcases findMatch_sound _ _ _ hm with ⟨m1, m2, _⟩
              exact Or.inr (hfs _ _ _ hl m1 m2)

/-- With all directory scans failing and an empty cache, every resolution
degrades to the identity (length-bounded auxiliary form). -/
theorem resolve_all_scan_fail_aux (fs : FS) (hdir : ∀ d, fs.listDir d = none) :
    ∀ n path, path.length ≤ n →
      replace_filename_case_insensitive fs [] path = (path, ([] : Cache)) := by
  intro n
  induction n with
  | zero =>
    intro path hlen
    rw [string_eq_empty_of_length path (Nat.le_zero.mp hlen)]
    exact resolve_empty_or_root _ _ _ (Or.inl rfl)
  | succ m ih =>
    intro path hlen
    by_cases h1 : should_exclude_path path = true
    · exact resolve_excluded _ _ _ h1
    · by_cases h2 : path = "" ∨ path = rootPath path
      · exact resolve_empty_or_root _ _ _ h2
      · by_cases h3 : fs.fileExists path = true
        · exact resolve_of_exists _ _ _ h3
        · have hplt := parentPath_length_lt path (not_or.mp h2).1
            (not_or.mp h2).2
          have hpc2 : (repairStep fs [] path).2 = ([] : Cache) := by
            rcases repairStep_snd fs [] path with hs | hs
            · exact hs
            · rw [hs, ih (parentPath path) (by omega)]
          rw [resolve_scan_fail fs [] path (bool_eq_false h1) h2
            (bool_eq_false h3) rfl (hdir _), hpc2]

theorem lookup_isSome_append (k : String) (t c : Cache)
    (h : (List.lookup k c).isSome) : (List.lookup k (t ++ c)).isSome := by
  induction t with
  | nil => exact h
  | cons kv t ih =>
    obtain ⟨k1, v1⟩ := kv
    rw [List.cons_append]
    simp only [List.lookup]
    cases hbeq : k == k1
    · simpa using ih
    · simp

theorem cacheSound_nil (fs : FS) : CacheSound fs [] := by
  intro k v h
  simp at h

/-- The witness filesystem satisfies the coherence assumption. -/
theorem fsW_coherent : FSCoherent fsW := by
  intro d es e hd he hne
  by_cases h1 : d = "/"
  · subst h1
    have hroot : fsW.listDir "/" = some ["a"] := by decide
    rw [hroot] at hd
    injection hd with hes
    subst hes
    have : e = "a" := by simpa using he
    subst this
    decide
  · by_cases h2 : d = "/a"
    · subst h2
      have ha : fsW.listDir "/a" = some [".", "..", "B"] := by decide
      rw [ha] at hd
      injection hd with hes
      subst hes
      have : e = "." ∨ e = ".." ∨ e = "B" := by simpa using he
      rcases this with h | h | h
      · exact absurd (Or.inl h) hne
      · exact absurd (Or.inr h) hne
      · subst h
        decide
    · have : fsW.listDir d = none := by
        simp only [fsW]
        rw [if_neg h1, if_neg h2]
      rw [this] at hd
      cases hd

theorem length_dropWhile_le (p : Char → Bool) (l : List Char) :
    (l.dropWhile p).length ≤ l.length := by
  induction l with
  | nil => simp
  | cons c rest ih =>
    rw [List.dropWhile_cons]
    split_ifs
    · exact Nat.le_succ_of_le ih
    · exact Nat.le_refl _

theorem string_mk_data (s : String) : String.mk s.data = s := by
  cases s
  rfl

theorem components_slash (rest : List Char) :
    components ('/' :: rest) = components rest := by
  cases rest with
  | nil => simp [components]
  | cons d rs => simp [components]

theorem components_cons_ne (c : Char) (rest : List Char) (hc : c ≠ '/') :
    components (c :: rest) =
      (c :: rest.takeWhile (fun x => x != '/')) ::
        components (rest.dropWhile (fun x => x != '/')) := by
  induction rest generalizing c with
  | nil => simp [components, hc]
  | cons d rs ih =>
    by_cases hd : d = '/'
    · subst hd
      simp [components, hc, List.takeWhile_cons, List.dropWhile_cons,
        components_slash]
    · have h1 : List.takeWhile (fun x => x != '/') (d :: rs)
          = d :: List.takeWhile (fun x => x != '/') rs := by
        rw [List.takeWhile_cons]
        simp [hd]
      have h2 : List.dropWhile (fun x => x != '/') (d :: rs)
          = List.dropWhile (fun x => x != '/') rs := by
        rw [List.dropWhile_cons]
        simp [hd]
      rw [h1, h2]
      simp only [components, if_neg hc, if_neg hd]
      rw [ih d hd]

theorem components_all_slash (l : List Char) (h : ∀ x ∈ l, x = '/') :
    components l = [] := by
  induction l with
  | nil => rfl
  | cons c rest ih =>
    have hc : c = '/' := h c (List.mem_cons_self _ _)
    subst hc
    rw [components_slash]
    exact ih fun x hx => h x (List.mem_cons_of_mem _ hx)

theorem components_of_no_slash (l : List Char) (h : '/' ∉ l) (hne : l ≠ []) :
    components l = [l] := by
  cases l with
  | nil => exact absurd rfl hne
  | cons c rest =>
    have hc : c ≠ '/' := fun hcc => h (hcc ▸ List.mem_cons_self _ _)
    have hall : ∀ x ∈ rest, (fun x => x != '/') x = true := by
      intro x hx
      simp only [bne_iff_ne, ne_eq]
      exact fun hxx => h (hxx ▸ List.mem_cons_of_mem _ hx)
    rw [components_cons_ne c rest hc]
    have ht : rest.takeWhile (fun x => x != '/') = rest :=
      List.takeWhile_eq_self_iff.mpr (by simpa using hall)
    have hdr : rest.dropWhile (fun x => x != '/') = [] :=
      List.dropWhile_eq_nil_iff.mpr (by simpa using hall)
    rw [ht, hdr]
    rfl

theorem components_append_slash_aux :
    ∀ n (xs : List Char), xs.length ≤ n → ∀ ys,
      components (xs ++ '/' :: ys) = components xs ++ components ys := by
  intro n
  induction n with
  | zero =>
    intro xs hlen ys
    rw [List.eq_nil_of_length_eq_zero (Nat.le_zero.mp hlen)]
    rw [List.nil_append, components_slash]
    rfl
  | succ m ih =>
    intro xs hlen ys
    cases xs with
    | nil =>
      rw [List.nil_append, components_slash]
      rfl
    | cons c xs' =>
      by_cases hc : c = '/'
      · subst hc
        rw [List.cons_append, components_slash, components_slash,
          ih xs' (by simpa using hlen) ys]
      · rw [List.cons_append, components_cons_ne c _ hc,
          components_cons_ne c xs' hc]
        by_cases hall : ∀ x ∈ xs', (fun x => x != '/') x = true
        · have ht : (xs' ++ '/' :: ys).takeWhile (fun x => x != '/') = xs' := by
            rw [List.takeWhile_append_of_pos hall, List.takeWhile_cons]
            simp
          have hdr : (xs' ++ '/' :: ys).dropWhile (fun x => x != '/')
              = '/' :: ys := by
            rw [List.dropWhile_append_of_pos hall, List.dropWhile_cons]
            simp
          have ht' : xs'.takeWhile (fun x => x != '/') = xs' :=
            List.takeWhile_eq_self_iff.mpr (by simpa using hall)
          have hdr' : xs'.dropWhile (fun x => x != '/') = [] :=
            List.dropWhile_eq_nil_iff.mpr (by simpa using hall)
          rw [ht, hdr, ht', hdr', components_slash]
          rfl
        · have hne : xs'.dropWhile (fun x => x != '/') ≠ [] := fun hnil =>
            hall (by simpa using List.dropWhile_eq_nil_iff.mp hnil)
          have htlen : (xs'.takeWhile (fun x => x != '/')).length ≠ xs'.length := by
            have hsplit := congrArg List.length
              (List.takeWhile_append_dropWhile (p := fun x => x != '/') (l := xs'))
            rw [List.length_append] at hsplit
            have := List.length_pos.mpr hne
            omega
          have ht : (xs' ++ '/' :: ys).takeWhile (fun x => x != '/')
              = xs'.takeWhile (fun x => x != '/') := by
            rw [List.takeWhile_append]
            exact if_neg htlen
          have hdr : (xs' ++ '/' :: ys).dropWhile (fun x => x != '/')
              = xs'.dropWhile (fun x => x != '/') ++ '/' :: ys := by
            rw [List.dropWhile_append]
            rw [if_neg (by simpa [List.isEmpty_iff] using hne)]
          rw [ht, hdr, ih (xs'.dropWhile fun x => x != '/')
            (by
              have := length_dropWhile_le (fun x => x != '/') xs'
              have hx : xs'.length ≤ m := by simpa using Nat.le_of_succ_le_succ hlen
              omega) ys]
          rfl

theorem components_append_slash (xs ys : List Char) :
    components (xs ++ '/' :: ys) = components xs ++ components ys :=
  components_append_slash_aux xs.length xs (Nat.le_refl _) ys

theorem components_concat_slash (xs : List Char) :
    components (xs ++ ['/']) = components xs := by
  rw [components_append_slash xs []]
  simp [components]

theorem dropTrailSlashes_spec (cs : List Char) :
    ∃ k, cs = dropTrailSlashes cs ++ List.replicate k '/' := by
  induction cs with
  | nil => exact ⟨0, rfl⟩
  | cons c rest ih =>
    rcases ih with ⟨k, hk⟩
    rw [dropTrailSlashes]
    split_ifs with h
    · refine ⟨k + 1, ?_⟩
      rw [h.2, List.nil_append, List.replicate_succ]
      rw [h.1, List.nil_append] at hk
      rw [← hk]
    · exact ⟨k, by rw [List.cons_append, ← hk]⟩

theorem components_append_replicate (l : List Char) (k : Nat) :
    components (l ++ List.replicate k '/') = components l := by
  cases k with
  | zero => simp
  | succ k' =>
    rw [List.replicate_succ, components_append_slash]
    rw [components_all_slash (List.replicate k' '/')
      (fun x hx => List.eq_of_mem_replicate hx)]
    simp

theorem no_slash_head_list (l : List Char) (h : '/' ∉ l) :
    ¬l.head? = some '/' := by
  cases l with
  | nil => simp
  | cons c rest =>
    simp only [List.head?_cons, Option.some.injEq]
    exact fun hc => h (hc ▸ List.mem_cons_self _ _)

theorem head?_append_left (l l' : List Char) (h : l ≠ []) :
    (l ++ l').head? = l.head? := by
  cases l with
  | nil => exact absurd rfl h
  | cons c rest => rfl

theorem components_replicate_append (k : Nat) (F : List Char) :
    components (List.replicate k '/' ++ F) = components F := by
  induction k with
  | zero => rfl
  | succ k' ih =>
    rw [List.replicate_succ, List.cons_append, components_slash, ih]

/-- The canonical decomposition behind `parentPath` and `pathFilename`. -/
theorem splitLast_decomp (s : String) :
    ∃ D F, (splitLast s.data).1 = D ∧ (splitLast s.data).2 = F ∧
      D ++ F = s.data ∧ '/' ∉ F ∧ (D = [] ∨ ∃ d', D = d' ++ ['/']) := by
  refine ⟨(splitLast s.data).1, (splitLast s.data).2, rfl, rfl,
    splitLast_append s.data, splitLast_no_slash s.data, ?_⟩
  by_cases h : (splitLast s.data).1 = []
  · exact Or.inl h
  · exact Or.inr (splitLast_fst_ends_slash s.data h)

theorem pathComponents_join (a b : String) (h : '/' ∉ b.data) :
    pathComponents (pathJoin a b) = pathComponents a ++ pathComponents b := by
  unfold pathJoin
  rw [if_neg (no_slash_head_list b.data h)]
  by_cases ha : a = ""
  · rw [if_pos ha]
    subst ha
    rfl
  · rw [if_neg ha]
    by_cases hl : a.data.getLast? = some '/'
    · rw [if_pos hl]
      rcases List.getLast?_eq_some_iff.mp hl with ⟨a', ha'⟩
      show components (a.data ++ b.data)
        = components a.data ++ components b.data
      rw [ha', components_concat_slash, List.append_assoc,
        List.singleton_append, components_append_slash]
    · rw [if_neg hl]
      show components (a.data ++ '/' :: b.data)
        = components a.data ++ components b.data
      rw [components_append_slash]

theorem isAbs_join (a b : String) (h : '/' ∉ b.data) :
    isAbs (pathJoin a b) = isAbs a := by
  unfold pathJoin
  rw [if_neg (no_slash_head_list b.data h)]
  by_cases ha : a = ""
  · rw [if_pos ha]
    subst ha
    unfold isAbs
    apply decide_eq_decide.mpr
    constructor
    · intro hb
      exact absurd hb (no_slash_head_list b.data h)
    · intro hb
      simp at hb
  · rw [if_neg ha]
    have hane : a.data ≠ [] := string_data_ne_nil a ha
    by_cases hl : a.data.getLast? = some '/'
    · rw [if_pos hl]
      unfold isAbs
      apply decide_eq_decide.mpr
      show (a.data ++ b.data).head? = some '/' ↔ a.data.head? = some '/'
      rw [head?_append_left a.data b.data hane]
    · rw [if_neg hl]
      unfold isAbs
      apply decide_eq_decide.mpr
      show (a.data ++ '/' :: b.data).head? = some '/' ↔ a.data.head? = some '/'
      rw [head?_append_left a.data ('/' :: b.data) hane]

theorem pathFilename_join (a b : String) (h : '/' ∉ b.data) :
    pathFilename (pathJoin a b) = b := by
  unfold pathJoin
  rw [if_neg (no_slash_head_list b.data h)]
  by_cases ha : a = ""
  · rw [if_pos ha]
    unfold pathFilename
    rw [splitLast_of_no_slash b.data h]
  · rw [if_neg ha]
    by_cases hl : a.data.getLast? = some '/'
    · rw [if_pos hl]
      rcases List.getLast?_eq_some_iff.mp hl with ⟨a', ha'⟩
      unfold pathFilename
      show String.mk (splitLast (a.data ++ b.data)).2 = b
      rw [ha', List.append_assoc, List.singleton_append,
        splitLast_concat_slash a' b.data h]
    · rw [if_neg hl]
      unfold pathFilename
      show String.mk (splitLast (a.data ++ '/' :: b.data)).2 = b
      rw [splitLast_concat_slash a.data b.data h]

theorem pathComponents_parent_filename (s : String) :
    pathComponents s =
      pathComponents (parentPath s) ++ pathComponents (pathFilename s) := by
  obtain ⟨D, F, hD, hF, hsp, hFns, hends⟩ := splitLast_decomp s
  unfold pathComponents parentPath pathFilename
  rw [hD, hF, ← hsp]
  rcases hends with rfl | ⟨d', rfl⟩
  · rw [if_pos rfl]
    rfl
  · have hDne : d' ++ ['/'] ≠ ([] : List Char) := by simp
    rw [if_neg hDne]
    by_cases ht : dropTrailSlashes (d' ++ ['/']) = []
    · rw [if_pos ht]
      have hall : ∀ x ∈ d' ++ ['/'], x = '/' :=
        (dropTrailSlashes_eq_nil_iff _).mp ht
      have hd'all : ∀ x ∈ d', x = '/' :=
        fun x hx => hall x (List.mem_append_left _ hx)
      rw [List.append_assoc, List.singleton_append, components_append_slash,
        components_all_slash d' hd'all]
      rfl
    · rw [if_neg ht]
      obtain ⟨k, hk⟩ := dropTrailSlashes_spec (d' ++ ['/'])
      have h1 : components (d' ++ ['/'])
          = components (dropTrailSlashes (d' ++ ['/'])) := by
        conv_lhs => rw [hk]
        rw [components_append_replicate]
      rw [List.append_assoc, List.singleton_append, components_append_slash]
      show components d' ++ components F
        = components (dropTrailSlashes (d' ++ ['/'])) ++ components F
      rw [← h1, components_concat_slash]

theorem isAbs_parentPath (s : String) : isAbs (parentPath s) = isAbs s := by
  obtain ⟨D, F, hD, hF, hsp, hFns, hends⟩ := splitLast_decomp s
  unfold parentPath isAbs
  rw [hD]
  apply decide_eq_decide.mpr
  rcases hends with rfl | ⟨d', rfl⟩
  · rw [if_pos rfl]
    rw [List.nil_append] at hsp
    rw [← hsp]
    constructor
    · intro hh
      simp at hh
    · intro hh
      exact absurd hh (no_slash_head_list F hFns)
  · have hDne : d' ++ ['/'] ≠ ([] : List Char) := by simp
    rw [if_neg hDne, ← hsp]
    have hhead : ((d' ++ ['/']) ++ F).head? = (d' ++ ['/']).head? :=
      head?_append_left _ _ hDne
    by_cases ht : dropTrailSlashes (d' ++ ['/']) = []
    · rw [if_pos ht]
      have hall : ∀ x ∈ d' ++ ['/'], x = '/' :=
        (dropTrailSlashes_eq_nil_iff _).mp ht
      have hsome : ((d' ++ ['/']) ++ F).head? = some '/' := by
        rw [hhead]
        cases d' with
        | nil => rfl
        | cons c cs =>
          have : c = '/' := hall c (List.mem_append_left _
            (List.mem_cons_self _ _))
          rw [List.cons_append, List.head?_cons, this]
      rw [hsome]
      constructor
      · intro _
        rfl
      · intro _
        rfl
    · rw [if_neg ht]
      obtain ⟨k, hk⟩ := dropTrailSlashes_spec (d' ++ ['/'])
      have h2 : (d' ++ ['/']).head?
          = (dropTrailSlashes (d' ++ ['/'])).head? := by
        conv_lhs => rw [hk]
        exact head?_append_left _ _ ht
      show (String.mk (dropTrailSlashes (d' ++ ['/']))).data.head? = some '/'
        ↔ ((d' ++ ['/']) ++ F).head? = some '/'
      rw [hhead, h2]

theorem lowerComp_join (a b : String) (h : '/' ∉ b.data) :
    lowerComp (pathJoin a b) = lowerComp a ++ lowerComp b := by
  unfold lowerComp
  rw [pathComponents_join a b h, List.map_append]

theorem lowerComp_parent_filename (s : String) :
    lowerComp s = lowerComp (parentPath s) ++ lowerComp (pathFilename s) := by
  unfold lowerComp
  rw [pathComponents_parent_filename s]
  rw [List.map_append]

theorem pathFilename_no_slash (s : String) : '/' ∉ (pathFilename s).data :=
  splitLast_no_slash s.data

/-- Slash-free strings with equal lower-casings have equal lowered
component lists. -/
theorem lowerComp_of_strLower_eq (e f : String) (he : '/' ∉ e.data)
    (hf : '/' ∉ f.data) (h : strLower e = strLower f) :
    lowerComp e = lowerComp f := by
  have hdata : e.data.map lowerChar = f.data.map lowerChar :=
    congrArg String.data h
  by_cases hee : e.data = []
  · have hff : f.data = [] := by
      rw [hee] at hdata
      exact (List.map_eq_nil_iff.mp hdata.symm)
    unfold lowerComp pathComponents
    rw [hee, hff]
  · have hff : f.data ≠ [] := fun hf0 => hee (by
      rw [hf0] at hdata
      exact List.map_eq_nil_iff.mp hdata)
    unfold lowerComp pathComponents
    rw [components_of_no_slash e.data he hee,
      components_of_no_slash f.data hf hff]
    simp only [List.map_cons, List.map_nil]
    rw [hdata]

theorem caseEqPath_refl (a : String) : caseEqPath a a := ⟨rfl, rfl⟩

/-- Well-formedness of directory enumerations: entry names never contain a
separator (true of `readdir`). -/
def EntriesSlashFree (fs : FS) : Prop :=
  ∀ d es e, fs.listDir d = some es → e ∈ es → '/' ∉ e.data

/-- Case-consistency of a cache state: every stored value names the same
location as its key up to ASCII letter case. -/
def CacheCaseEq (cache : Cache) : Prop :=
  ∀ k v, List.lookup k cache = some v → caseEqPath k v

/-- Length-bounded auxiliary form: the resolver output names the same
location as its input up to ASCII letter case (with separator runs
normalized). -/
theorem resolve_caseEq_aux (fs : FS) (hfs : EntriesSlashFree fs) :
    ∀ n path cache, path.length ≤ n → CacheCaseEq cache →
      caseEqPath path (replace_filename_case_insensitive fs cache path).1 := by
  intro n
  induction n with
  | zero =>
    intro path cache hlen _
    have hp : path = "" := string_eq_empty_of_length path (Nat.le_zero.mp hlen)
    subst hp
    rw [resolve_empty_or_root fs cache "" (Or.inl rfl)]
    exact caseEqPath_refl _
  | succ m ih =>
    intro path cache hlen hc
    by_cases h1 : should_exclude_path path = true
    · rw [resolve_excluded fs cache path h1]
      exact caseEqPath_refl _
    · by_cases h2 : path = "" ∨ path = rootPath path
      · rw [resolve_empty_or_root fs cache path h2]
        exact caseEqPath_refl _
      · by_cases h3 : fs.fileExists path = true
        · rw [resolve_of_exists fs cache path h3]
          exact caseEqPath_refl _
        · cases h4 : List.lookup path cache with
          | some v =>
            rw [resolve_cache_hit fs cache path v (bool_eq_false h1) h2
              (bool_eq_false h3) h4]
            exact hc path v h4
          | none =>
            have hplt := parentPath_length_lt path (not_or.mp h2).1
              (not_or.mp h2).2
            cases hl : fs.listDir (parentPath (repairStep fs cache path).1) with
            | none =>
              rw [resolve_scan_fail fs cache path (bool_eq_false h1) h2
                (bool_eq_false h3) h4 hl]
              exact caseEqPath_refl _
            | some entries =>
              cases hm : findMatch (strLower (pathFilename path)) entries with
              | none =>
                rw [resolve_scan_nomatch fs cache path entries
                  (bool_eq_false h1) h2 (bool_eq_false h3) h4 hl hm]
                exact caseEqPath_refl _
              | some e =>
                rw [resolve_scan_match fs cache path entries e
                  (bool_eq_false h1) h2 (bool_eq_false h3) h4 hl hm]
                rcases findMatch_sound _ _ _ hm with ⟨me, _, mlow⟩
                have hens : '/' ∉ e.data := hfs _ _ _ hl me
                have hfns : '/' ∉ (pathFilename path).data :=
                  pathFilename_no_slash path
                have hef : lowerComp e = lowerComp (pathFilename path) :=
                  lowerComp_of_strLower_eq e (pathFilename path) hens hfns mlow
                rcases repairStep_fst fs cache path with hP | ⟨hP, hex⟩
                · constructor
                  · rw [isAbs_join _ e hens, hP, isAbs_parentPath]
                  · rw [lowerComp_join _ e hens, hP, hef,
                      ← lowerComp_parent_filename]
                · rcases ih (parentPath path) cache (by omega) hc with ⟨ihA, ihC⟩
                  have hfj : pathFilename (repairStep fs cache path).1
                      = pathFilename path := by
                    rw [hP]
                    exact pathFilename_join _ _ hfns
                  have hPJ : lowerComp (repairStep fs cache path).1 =
                      lowerComp
                        (replace_filename_case_insensitive fs cache
                          (parentPath path)).1 ++
                        lowerComp (pathFilename path) := by
                    rw [hP]
                    exact lowerComp_join _ _ hfns
                  have hPD : lowerComp
                        (parentPath (repairStep fs cache path).1) =
                      lowerComp
                        (replace_filename_case_insensitive fs cache
                          (parentPath path)).1 := by
                    have hsplitP := lowerComp_parent_filename
                      (repairStep fs cache path).1
                    rw [hfj, hPJ] at hsplitP
                    exact List.append_cancel_right hsplitP.symm
                  have hPA : isAbs (parentPath (repairStep fs cache path).1) =
                      isAbs
                        (replace_filename_case_insensitive fs cache
                          (parentPath path)).1 := by
                    rw [isAbs_parentPath, hP, isAbs_join _ _ hfns]
                  constructor
                  · rw [isAbs_join _ e hens, hPA, ← ihA, isAbs_parentPath]
                  · rw [lowerComp_join _ e hens, hPD, ← ihC, hef,
                      ← lowerComp_parent_filename]


/-- A filesystem where every directory scan fails (`opendir_real` returns
null everywhere) and nothing exists. -/
def fsNoDir : FS where
  fileExists := fun _ => false
  listDir := fun _ => none

/-- A filesystem whose root contains `dev`, for checking that `/Dev` is an
ordinary path eligible for case rewriting. -/
def fsDev : FS where
  fileExists := fun p => p == "/"
  listDir := fun d => if d = "/" then some ["dev"] else none

theorem cacheCaseEq_nil : CacheCaseEq [] := by
  intro k v h
  simp at h

theorem fsC9_slashfree : EntriesSlashFree fsC9 := by
  intro d es e hd he
  by_cases h1 : d = "a"
  · subst h1
    have hh : fsC9.listDir "a" = some ["B"] := by decide
    rw [hh] at hd
    injection hd with hes
    subst hes
    have : e = "B" := by simpa using he
    subst this
    decide
  · have hh : fsC9.listDir d = none := by
      simp [fsC9, h1]
    rw [hh] at hd
    cases hd

theorem findMatch_append_first (lf : String) (pre : List String) (e : String)
    (post : List String)
    (hpre : ∀ x ∈ pre, x = "." ∨ x = ".." ∨ strLower x ≠ lf)
    (hdot : ¬(e = "." ∨ e = "..")) (hlow : strLower e = lf) :
    findMatch lf (pre ++ e :: post) = some e := by
  induction pre with
  | nil =>
    rw [List.nil_append, findMatch, if_neg hdot, if_pos hlow]
  | cons x rest ih =>
    rw [List.cons_append, findMatch]
    have ihr := ih fun y hy => hpre y (List.mem_cons_of_mem _ hy)
    rcases hpre x (List.mem_cons_self _ _) with h | h | h
    · rw [if_pos (Or.inl h)]
      exact ihr
    · rw [if_pos (Or.inr h)]
      exact ihr
    · by_cases hdx : x = "." ∨ x = ".."
      · rw [if_pos hdx]
        exact ihr
      · rw [if_neg hdx, if_neg h]
        exact ihr

theorem findMatch_eq_none (lf : String) (es : List String)
    (h : ∀ x ∈ es, x = "." ∨ x = ".." ∨ strLower x ≠ lf) :
    findMatch lf es = none := by
  induction es with
  | nil => rfl
  | cons x rest ih =>
    rw [findMatch]
    have ihr := ih fun y hy => h y (List.mem_cons_of_mem _ hy)
    rcases h x (List.mem_cons_self _ _) with hx | hx | hx
    · rw [if_pos (Or.inl hx)]
      exact ihr
    · rw [if_pos (Or.inr hx)]
      exact ihr
    · by_cases hdx : x = "." ∨ x = ".."
      · rw [if_pos hdx]
        exact ihr
      · rw [if_neg hdx, if_neg hx]
        exact ihr

/-- C1: the resolver is a total function that never signals a fault: a null
path yields null, a non-null path always yields a non-null result, empty
input is returned unchanged, and when every directory scan fails
(`ScanFailure`) the original input path is returned with the cache
untouched. -/
theorem resolver_total_and_fault_free (fs : FS) (cache : Cache) :
    replace_filename_case_insensitive_opt fs cache none = (none, cache) ∧
    (∀ path, (replace_filename_case_insensitive_opt fs cache (some path)).1
      = some (replace_filename_case_insensitive fs cache path).1) ∧
    replace_filename_case_insensitive fs cache "" = ("", cache) ∧
    ((∀ d, fs.listDir d = none) → ∀ path,
      replace_filename_case_insensitive fs [] path = (path, [])) := by
  refine ⟨rfl, fun path => rfl,
    resolve_empty_or_root fs cache "" (Or.inl rfl), ?_⟩
  intro hdir path
  exact resolve_all_scan_fail_aux fs hdir path.length path (Nat.le_refl _)

/-- Witness for C1 at the filesystem whose every scan fails. -/
theorem resolver_total_and_fault_free_witness :
    replace_filename_case_insensitive_opt fsNoDir [] none = (none, []) ∧
    (replace_filename_case_insensitive_opt fsNoDir [] (some "/A/b")).1
      = some (replace_filename_case_insensitive fsNoDir [] "/A/b").1 ∧
    replace_filename_case_insensitive fsNoDir [] "" = ("", []) ∧
    replace_filename_case_insensitive fsNoDir [] "/A/b" = ("/A/b", []) :=
  ⟨(resolver_total_and_fault_free fsNoDir []).1,
   (resolver_total_and_fault_free fsNoDir []).2.1 "/A/b",
   (resolver_total_and_fault_free fsNoDir []).2.2.1,
   (resolver_total_and_fault_free fsNoDir []).2.2.2 (fun _ => rfl) "/A/b"⟩

/-- C2 (counterexample): in `fsC2`, requesting `/A/b` repairs the parent to
`/a` (which exists), so the claim predicts the return value `/a/b`; but the
scan of `/a` finds no match and the code returns the original `/A/b`. -/
theorem no_match_repair_counterexample :
    fsC2.fileExists
      (replace_filename_case_insensitive fsC2 [] (parentPath "/A/b")).1
      = true ∧
    pathJoin (replace_filename_case_insensitive fsC2 [] (parentPath "/A/b")).1
      (pathFilename "/A/b") = "/a/b" ∧
    (replace_filename_case_insensitive fsC2 [] "/A/b").1 = "/A/b" ∧
    ("/A/b" : String) ≠ "/a/b" :=
  ⟨by decide, by decide, by decide, by decide⟩

/-- C2 (amended): when the directory scan completes without a match, the
resolver returns the original input path — even when the recursive parent
repair succeeded; the repaired path only selects the directory scanned. -/
theorem no_match_returns_original_input (fs : FS) (cache : Cache)
    (path : String) (entries : List String)
    (h1 : should_exclude_path path = false)
    (h2 : ¬(path = "" ∨ path = rootPath path))
    (h3 : fs.fileExists path = false)
    (h4 : List.lookup path cache = none)
    (hl : fs.listDir (parentPath (repairStep fs cache path).1) = some entries)
    (hm : findMatch (strLower (pathFilename path)) entries = none) :
    (replace_filename_case_insensitive fs cache path).1 = path := by
  rw [resolve_scan_nomatch fs cache path entries h1 h2 h3 h4 hl hm]

/-- Witness for the amended C2 at `fsC2` with request `/A/b`. -/
theorem no_match_returns_original_input_witness :
    (replace_filename_case_insensitive fsC2 [] "/A/b").1 = "/A/b" :=
  no_match_returns_original_input fsC2 [] "/A/b" ["c"] (by decide) (by decide)
    (by decide) (by decide) (by decide) (by decide)

/-- C3 (counterexample): in `fsC3`, requesting `/A/b` finds the match
`/a/B` (so the resolver returns a path different from its input), yet the
cache holds no entry keyed by the original input `/A/b` — the key used is
the parent-repaired path `/a/b`. -/
theorem cache_key_original_counterexample :
    (replace_filename_case_insensitive fsC3 [] "/A/b").1 = "/a/B" ∧
    ("/a/B" : String) ≠ "/A/b" ∧
    List.lookup "/A/b"
      (replace_filename_case_insensitive fsC3 [] "/A/b").2 = none ∧
    List.lookup "/a/b"
      (replace_filename_case_insensitive fsC3 [] "/A/b").2 = some "/a/B" :=
  ⟨by decide, by decide, by decide, by decide⟩

/-- C3 (amended): on a match the resolver constructs
`scanned-parent / matched-entry`, inserts it into the cache keyed by the
possibly parent-repaired working path `p.string()` (equal to the original
input only when no repair occurred), and returns the resolved path. -/
theorem match_caches_repaired_key_and_returns_resolved (fs : FS)
    (cache : Cache) (path : String) (entries : List String) (e : String)
    (h1 : should_exclude_path path = false)
    (h2 : ¬(path = "" ∨ path = rootPath path))
    (h3 : fs.fileExists path = false)
    (h4 : List.lookup path cache = none)
    (hl : fs.listDir (parentPath (repairStep fs cache path).1) = some entries)
    (hm : findMatch (strLower (pathFilename path)) entries = some e) :
    replace_filename_case_insensitive fs cache path =
      (pathJoin (parentPath (repairStep fs cache path).1) e,
       ((repairStep fs cache path).1,
        pathJoin (parentPath (repairStep fs cache path).1) e)
         :: (repairStep fs cache path).2) :=
  resolve_scan_match fs cache path entries e h1 h2 h3 h4 hl hm

/-- Witness for the amended C3 at `fsC3` with request `/A/b`. -/
theorem match_caches_repaired_key_and_returns_resolved_witness :
    replace_filename_case_insensitive fsC3 [] "/A/b" =
      (pathJoin (parentPath (repairStep fsC3 [] "/A/b").1) "B",
       ((repairStep fsC3 [] "/A/b").1,
        pathJoin (parentPath (repairStep fsC3 [] "/A/b").1) "B")
         :: (repairStep fsC3 [] "/A/b").2) :=
  match_caches_repaired_key_and_returns_resolved fsC3 [] "/A/b" ["B"] "B"
    (by decide) (by decide) (by decide) (by decide) (by decide) (by decide)

/-- C4: a path that exists on disk exactly as given is returned unchanged
and the cache state after the call equals the cache state before. -/
theorem exact_path_identity_cache_untouched (fs : FS) (cache : Cache)
    (path : String) (h : fs.fileExists path = true) :
    replace_filename_case_insensitive fs cache path = (path, cache) :=
  resolve_of_exists fs cache path h

/-- Witness for C4: `/a` exists in `fsW` and resolves to itself with the
(non-empty) cache untouched. -/
theorem exact_path_identity_cache_untouched_witness :
    fsW.fileExists "/a" = true ∧
    replace_filename_case_insensitive fsW [("x", "y")] "/a"
      = ("/a", [("x", "y")]) :=
  ⟨by decide, exact_path_identity_cache_untouched fsW [("x", "y")] "/a"
    (by decide)⟩

/-- C5: the resolver is idempotent over a fixed filesystem and cache state:
resolving the result of a resolution returns it unchanged (the filesystem
must be coherent — enumerated entries exist — and the cache sound — stored
values exist —, both true of the running system). -/
theorem resolver_idempotent (fs : FS) (cache : Cache) (p : String)
    (hfs : FSCoherent fs) (hc : CacheSound fs cache) :
    (replace_filename_case_insensitive fs cache
      (replace_filename_case_insensitive fs cache p).1).1
      = (replace_filename_case_insensitive fs cache p).1 := by
  rcases resolve_result_eq_or_exists fs cache p hfs hc with h | h
  · rw [h]
    exact h
  · rw [resolve_of_exists fs cache _ h]

/-- Witness for C5 at `fsW` with request `/A/b` (which resolves to the
existing `/a/B`). -/
theorem resolver_idempotent_witness :
    (replace_filename_case_insensitive fsW []
      (replace_filename_case_insensitive fsW [] "/A/b").1).1
      = (replace_filename_case_insensitive fsW [] "/A/b").1 :=
  resolver_idempotent fsW [] "/A/b" fsW_coherent (cacheSound_nil fsW)

/-- C6: the scan lower-cases with ASCII `tolower`, skips the `.` and `..`
pseudo-entries, returns the first matching entry in enumeration order
(later entries are irrelevant), and exhausting the enumeration is a normal
no-match outcome, not an error. -/
theorem scan_first_match_semantics :
    (∀ lf pre e post,
      (∀ x ∈ pre, x = "." ∨ x = ".." ∨ strLower x ≠ lf) →
      ¬(e = "." ∨ e = "..") → strLower e = lf →
      findMatch lf (pre ++ e :: post) = some e) ∧
    (∀ lf es, (∀ x ∈ es, x = "." ∨ x = ".." ∨ strLower x ≠ lf) →
      findMatch lf es = none) ∧
    strLower "FoO.TXT" = "foo.txt" :=
  ⟨findMatch_append_first, findMatch_eq_none, by decide⟩

/-- Witness for C6: the first match wins after skipping `.`, and a
non-matching enumeration yields no match. -/
theorem scan_first_match_semantics_witness :
    findMatch "foo" (["."] ++ "Foo" :: ["foo"]) = some "Foo" ∧
    findMatch "foo" ["..", "bar"] = none :=
  ⟨scan_first_match_semantics.1 "foo" ["."] "Foo" ["foo"] (by decide)
    (by decide) (by decide),
   scan_first_match_semantics.2.1 "foo" ["..", "bar"] (by decide)⟩

/-- C7: one resolver call only ever prepends to the cache — existing
entries are never removed and existing keys stay present — and every cache
entry is an old entry or a freshly inserted pair whose value is
`parent / matched-entry` for an entry just enumerated there, hence a path
that existed on disk at insertion time (filesystem coherence). -/
theorem cache_append_only_and_values_existed (fs : FS) (cache : Cache)
    (path : String) (hfs : FSCoherent fs) :
    cache <:+ (replace_filename_case_insensitive fs cache path).2 ∧
    (∀ k, (List.lookup k cache).isSome →
      (List.lookup k (replace_filename_case_insensitive fs cache path).2).isSome) ∧
    ∀ kv ∈ (replace_filename_case_insensitive fs cache path).2,
      kv ∈ cache ∨ fs.fileExists kv.2 = true := by
  obtain ⟨hsuf, hprov⟩ := resolve_cache_extends fs cache path hfs
  refine ⟨hsuf, ?_, hprov⟩
  intro k hk
  rcases hsuf with ⟨t, ht⟩
  rw [← ht]
  exact lookup_isSome_append k t cache hk

/-- Witness for C7 at `fsW` with request `/A/b` and a pre-populated cache. -/
theorem cache_append_only_and_values_existed_witness :
    [("q", "w")] <:+
      (replace_filename_case_insensitive fsW [("q", "w")] "/A/b").2 ∧
    (∀ k, (List.lookup k [("q", "w")]).isSome →
      (List.lookup k
        (replace_filename_case_insensitive fsW [("q", "w")] "/A/b").2).isSome) ∧
    ∀ kv ∈ (replace_filename_case_insensitive fsW [("q", "w")] "/A/b").2,
      kv ∈ [("q", "w")] ∨ fsW.fileExists kv.2 = true :=
  cache_append_only_and_values_existed fsW [("q", "w")] "/A/b" fsW_coherent

/-- C8: a path beginning with a configured exclusion prefix is returned
unchanged by the resolver regardless of the filesystem, and the exclusion
test returns true exactly when some configured prefix is a byte-for-byte,
case-sensitive prefix of the path. -/
theorem excluded_paths_unchanged_iff_prefix_match (path : String) :
    (∀ fs cache, should_exclude_path path = true →
      replace_filename_case_insensitive fs cache path = (path, cache)) ∧
    (should_exclude_path path = true ↔
      ∃ pre ∈ excluded_prefixes, pre.data <+: path.data) := by
  constructor
  · intro fs cache h
    exact resolve_excluded fs cache path h
  · unfold should_exclude_path
    rw [List.any_eq_true]
    constructor
    · rintro ⟨pre, hmem, hpre⟩
      exact ⟨pre, hmem, List.isPrefixOf_iff_prefix.mp hpre⟩
    · rintro ⟨pre, hmem, hpre⟩
      exact ⟨pre, hmem, List.isPrefixOf_iff_prefix.mpr hpre⟩

/-- Witness for C8: `/dev/TTY` is excluded and passes through even though
it does not exist in `fsW`. -/
theorem excluded_paths_unchanged_iff_prefix_match_witness :
    replace_filename_case_insensitive fsW [] "/dev/TTY" = ("/dev/TTY", []) :=
  (excluded_paths_unchanged_iff_prefix_match "/dev/TTY").1 fsW [] (by decide)

/-- C9 (counterexample): in `fsC9`, the input `a//b` resolves to `a/B`,
whose length differs from the input, so the output does not differ from the
input only in letter case — the duplicate separator was collapsed. -/
theorem case_only_rewrite_counterexample :
    (replace_filename_case_insensitive fsC9 [] "a//b").1 = "a/B" ∧
    ("a/B" : String) ≠ "a//b" ∧
    ("a/B" : String).length ≠ ("a//b" : String).length :=
  ⟨by decide, by decide, by decide⟩

/-- C9 (amended): the resolver output always names the same location as its
input up to ASCII letter case: same absoluteness and the same sequence of
non-empty components after lower-casing — but runs of separators are
normalized to single separators when a path is rebuilt, so the output is
not always a character-for-character case variant of the input (requires
directory entries without separators and a case-consistent cache, both true
of the running system). -/
theorem output_names_input_up_to_case (fs : FS) (cache : Cache)
    (path : String) (hfs : EntriesSlashFree fs) (hc : CacheCaseEq cache) :
    caseEqPath path (replace_filename_case_insensitive fs cache path).1 :=
  resolve_caseEq_aux fs hfs path.length path cache (Nat.le_refl _) hc

/-- Witness for the amended C9 at `fsC9` with request `a//b`. -/
theorem output_names_input_up_to_case_witness :
    caseEqPath "a//b" (replace_filename_case_insensitive fsC9 [] "a//b").1 :=
  output_names_input_up_to_case fsC9 [] "a//b" fsC9_slashfree cacheCaseEq_nil

/-- C10: the exclusion list is exactly `/dev/`, `/proc/`, `/sys/` with the
trailing slash: the bare `/dev`, `/proc`, `/sys` and the unrelated
`/device` are not excluded, a true `/dev/...` path is, and a path such as
`/Dev` remains eligible for case rewriting. -/
theorem exclusion_list_exact :
    excluded_prefixes = ["/dev/", "/proc/", "/sys/"] ∧
    should_exclude_path "/dev" = false ∧
    should_exclude_path "/proc" = false ∧
    should_exclude_path "/sys" = false ∧
    should_exclude_path "/device" = false ∧
    should_exclude_path "/dev/null" = true ∧
    (replace_filename_case_insensitive fsDev [] "/Dev").1 = "/dev" :=
  ⟨rfl, by decide, by decide, by decide, by decide, by decide, by decide⟩


end Insensitive
